import Mathlib

/-!
Verification development for the ArchitectAI version lifecycle manager and its
durable synchronization layer.

The definitions below are a shallow embedding of the TypeScript sources:

* `src/types.ts` — the domain data model (`Diagram`, `ComponentSpec`,
  `DiagramVersion`, `VersionStatus`);
* `src/services/versionStore.ts` (hook part) — the in-memory version ledger
  (`useVersionStore`: `createVersion`, `updateVersion`, …).  React state is
  modeled explicitly: the hook's callbacks close over the *render-time*
  snapshot of the `versions` array, while functional `setVersions` updaters
  act on the up-to-date pending state; a re-render publishes the pending
  state as the next snapshot.
* `src/services/geminiService.ts` — the processing pipeline
  (`processVersionInBackground`).  The two external Gemini calls are
  oracles (`ExternalServices`); the observable behaviour of one `process`
  run is its result plus the ordered trace of emitted progress events and
  external invocations.  `Date.now()` is determinized as an explicit `now`
  argument.
* the GitHub persistence module (`saveVersion`, `loadVersions`,
  `createOrUpdateFile`, `getFileContent`, `getFileAsBase64`).  The remote
  repository is a flat file tree; paths are slash-separated and modeled as
  segment lists (no identifier produced by the app contains a slash).
  A write prepends to an association list, so the newest write at a path
  shadows older ones.  JSON (de)serialization of the structured records is
  modeled as the identity embedding via the `FileData` sum; base64 image
  blobs are kept as their payload strings (the transport's line breaks,
  stripped by `getFileAsBase64`, are not modeled).  Binary reads succeed
  exactly on files holding a binary payload.
* `src/App.tsx` — `handleUpdate` / `handleApiError`, the orchestration that
  creates a version, runs the pipeline, patches the ledger on each progress
  event and persists on success.
-/

namespace ArchitectAI

/-- Diagram kind tag, `'main' | 'sub'` in `types.ts`. -/
inductive DiagramKind where
  | main
  | sub
deriving DecidableEq, Repr

/-- `ComponentSpec` from `types.ts`. -/
structure ComponentSpec where
  id : String
  name : String
  description : String
  userNotes : String
deriving DecidableEq, Repr

/-- `Diagram` from `types.ts`; `dataUrl` is nullable (`string | null`). -/
structure Diagram where
  id : String
  name : String
  dataUrl : Option String
  type : DiagramKind
deriving DecidableEq, Repr

/-- `VersionStatus` from `types.ts`. -/
inductive VersionStatus where
  | pending
  | refining
  | specifying
  | complete
  | error
deriving DecidableEq, Repr

/-- `DiagramVersion` from `types.ts`.  `buildPlan` and `error` are optional
fields; `Date.now()` timestamps are naturals. -/
structure DiagramVersion where
  id : String
  versionNumber : Nat
  timestamp : Nat
  diagrams : List Diagram
  refinedImage : Option String
  specs : List ComponentSpec
  buildPlan : Option String := none
  status : VersionStatus
  error : Option String := none
deriving DecidableEq, Repr

/-- `Partial<DiagramVersion>`: every field optionally present.  An outer
`some` means the field occurs in the patch object. -/
structure VersionUpdates where
  id : Option String := none
  versionNumber : Option Nat := none
  timestamp : Option Nat := none
  diagrams : Option (List Diagram) := none
  refinedImage : Option (Option String) := none
  specs : Option (List ComponentSpec) := none
  buildPlan : Option (Option String) := none
  status : Option VersionStatus := none
  error : Option (Option String) := none
deriving DecidableEq, Repr

/-- The JS object spread `{ ...v, ...updates }`: fields present in the patch
override the version's fields. -/
def applyUpdates (v : DiagramVersion) (u : VersionUpdates) : DiagramVersion where
  id := u.id.getD v.id
  versionNumber := u.versionNumber.getD v.versionNumber
  timestamp := u.timestamp.getD v.timestamp
  diagrams := u.diagrams.getD v.diagrams
  refinedImage := u.refinedImage.getD v.refinedImage
  specs := u.specs.getD v.specs
  buildPlan := u.buildPlan.getD v.buildPlan
  status := u.status.getD v.status
  error := u.error.getD v.error

/-! ### The in-memory ledger (`useVersionStore`)

`rendered` is the snapshot of the `versions` state array that the hook's
callbacks close over; `current` is the pending state that functional
`setVersions` updaters act on.  A re-render copies `current` into
`rendered`. -/

structure LedgerState where
  rendered : List DiagramVersion
  current : List DiagramVersion
deriving DecidableEq, Repr

/-- The initial `useState<DiagramVersion[]>([])`. -/
def initialLedger : LedgerState := ⟨[], []⟩

/-- React committing the pending state and re-rendering. -/
def rerender (st : LedgerState) : LedgerState := ⟨st.current, st.current⟩

/-- `createVersion` from `useVersionStore`: builds the new version from the
*render-time* snapshot (`versions.length + 1` reads the closed-over array)
and appends it with the functional updater `prev => [...prev, newVersion]`. -/
def createVersion (st : LedgerState) (diagrams : List Diagram) (now : Nat) :
    DiagramVersion × LedgerState :=
  let newVersion : DiagramVersion :=
    { id := "v-" ++ Nat.repr now
      versionNumber := st.rendered.length + 1
      timestamp := now
      diagrams := diagrams
      refinedImage := none
      specs := []
      status := .pending }
  (newVersion, { st with current := st.current ++ [newVersion] })

/-- `updateVersion` from `useVersionStore`:
`prev.map(v => v.id === id ? { ...v, ...updates } : v)`. -/
def updateVersion (st : LedgerState) (vid : String) (updates : VersionUpdates) :
    LedgerState :=
  { st with
    current := st.current.map fun v =>
      if v.id = vid then applyUpdates v updates else v }

/-- `getVersion`: `versions.find(v => v.id === id)` on the rendered snapshot. -/
def getVersion (st : LedgerState) (vid : String) : Option DiagramVersion :=
  st.rendered.find? fun v => v.id == vid

/-- `getLatestVersion`: `versions[versions.length - 1]`. -/
def getLatestVersion (st : LedgerState) : Option DiagramVersion :=
  st.rendered.getLast?

/-- `getLatestCompleteVersion`:
`[...versions].reverse().find(v => v.status === 'complete')`. -/
def getLatestCompleteVersion (st : LedgerState) : Option DiagramVersion :=
  st.rendered.reverse.find? fun v => v.status == .complete

/-- One ledger-mutating step: the operations `useVersionStore` exposes that
touch the `versions` state, plus React committing a re-render. -/
inductive LedgerOp where
  | create (diagrams : List Diagram) (now : Nat)
  | update (vid : String) (u : VersionUpdates)
  | render

def applyOp (st : LedgerState) : LedgerOp → LedgerState
  | .create ds now => (createVersion st ds now).2
  | .update vid u => updateVersion st vid u
  | .render => rerender st

def applyOps (st : LedgerState) (ops : List LedgerOp) : LedgerState :=
  ops.foldl applyOp st

/-- An operation whose patch does not itself carry the `diagrams` or
`versionNumber` fields (every patch the application issues is of this
shape). -/
def benignOp : LedgerOp → Bool
  | .update _ u => u.diagrams.isNone && u.versionNumber.isNone
  | _ => true

/-! ### The processing pipeline (`geminiService.ts`) -/

/-- A raw `{name, description}` component as returned by the external
analysis call (the response-schema of `analyzeDiagramComponents`). -/
structure RawComponent where
  name : String
  description : String
deriving DecidableEq, Repr

/-- The id `` `comp-${index}-${Date.now()}` `` given to the component at
position `index`. -/
def componentId (index now : Nat) : String :=
  "comp-" ++ Nat.repr index ++ "-" ++ Nat.repr now

/-- The mapping step of `analyzeDiagramComponents`: each raw component gets
an id from its index and an empty `userNotes` field. -/
def toComponentSpecs (raw : List RawComponent) (now : Nat) : List ComponentSpec :=
  raw.enum.map fun p =>
    { id := componentId p.1 now
      name := p.2.name
      description := p.2.description
      userNotes := "" }

/-- Externally observable actions of one `processVersionInBackground` run:
`onProgress` callbacks and the two external Gemini invocations. -/
inductive PipelineEvent where
  | progress (status : VersionStatus)
  | refineCall (images : List String)
  | analyzeCall (image : String)
deriving DecidableEq, Repr

/-- Oracles standing for the two external Gemini capabilities.  `refineSketch`
synthesizes one refined diagram from the sketches; `analyzeDiagram` extracts
raw components from one image.  A `.error` value is the thrown error's
message. -/
structure ExternalServices where
  refineSketch : List String → Except String String
  analyzeDiagram : String → Except String (List RawComponent)

structure PipelineResult where
  refinedImage : String
  specs : List ComponentSpec
deriving DecidableEq, Repr

/-- The JS truthiness filter `images.filter(Boolean)` over strings: keeps the
non-empty ones. -/
def validImagesOf (images : List String) : List String :=
  images.filter fun s => s != ""

/-- `processVersionInBackground` from `geminiService.ts`, together with the
ordered trace of its observable actions. -/
def processVersionInBackground (svc : ExternalServices) (now : Nat)
    (images : List String) : Except String PipelineResult × List PipelineEvent :=
  let validImages := validImagesOf images
  if validImages.length = 0 then
    (.error "No valid images to process", [])
  else
    match svc.refineSketch validImages with
    | .error e =>
        (.error e, [.progress .refining, .refineCall validImages])
    | .ok refinedImage =>
        match svc.analyzeDiagram refinedImage with
        | .error e =>
            (.error e,
             [.progress .refining, .refineCall validImages,
              .progress .specifying, .analyzeCall refinedImage])
        | .ok raw =>
            (.ok ⟨refinedImage, toComponentSpecs raw now⟩,
             [.progress .refining, .refineCall validImages,
              .progress .specifying, .analyzeCall refinedImage,
              .progress .complete])

/-! ### The GitHub persistence layer -/

/-- The `githubRepo` field of a `Project` (project-types module). -/
structure GitHubRepoRef where
  owner : String
  name : String
  fullName : String
  url : String
  htmlUrl : String
deriving DecidableEq, Repr

/-- `Project` from the project-types module. -/
structure Project where
  id : String
  name : String
  description : String
  githubRepo : GitHubRepoRef
  createdAt : Nat
  updatedAt : Nat
deriving DecidableEq, Repr

/-- `ProjectMetadata`: the record stored in `.architectai/project.json`. -/
structure ProjectMetadata where
  version : String
  projectId : String
  projectName : String
  description : String
  createdAt : Nat
  updatedAt : Nat
  latestVersionId : Option String
deriving DecidableEq, Repr

/-- The persisted status of a version: the `'complete' | 'error'` union of
the `VersionMetadata` type. -/
inductive PersistedStatus where
  | complete
  | error
deriving DecidableEq, Repr

/-- Reading a persisted status back into the in-memory `VersionStatus`
(the TS union `'complete' | 'error'` is a subtype of `VersionStatus`). -/
def PersistedStatus.toVersionStatus : PersistedStatus → VersionStatus
  | .complete => .complete
  | .error => .error

/-- `VersionMetadata`: the record stored in `versions/<id>/version.json`. -/
structure VersionMetadata where
  id : String
  versionNumber : Nat
  timestamp : Nat
  status : PersistedStatus
  diagramFiles : List String
  refinedFile : Option String
  specs : List ComponentSpec
  buildPlan : Option String
deriving DecidableEq, Repr

/-- A path inside the project repository, as slash-separated segments. -/
abbrev RepoPath := List String

/-- Contents of one remote file.  Structured JSON records are kept
structured (serialization is the identity embedding); binary blobs keep
their base64 payload string. -/
inductive FileData where
  | image (b64 : String)
  | versionMeta (m : VersionMetadata)
  | projectMeta (m : ProjectMetadata)
  | specsJson (specs : List ComponentSpec)
  | text (s : String)
deriving DecidableEq, Repr

/-- One GitHub repository's file tree; the newest write at a path comes
first and shadows older ones. -/
abbrev RepoStore := List (RepoPath × FileData)

/-- `createOrUpdateFile`: PUT of a file's new contents (the read-then-write
fingerprint handshake always replaces the contents). -/
def createOrUpdateFile (store : RepoStore) (path : RepoPath) (content : FileData) :
    RepoStore :=
  (path, content) :: store

/-- `getFileContent` / the GET half of the contents API: the most recent
write at `path`, if any. -/
def getFileContent (store : RepoStore) (path : RepoPath) : Option FileData :=
  (store.find? fun e => e.1 == path).map (·.2)

/-- `getFileAsBase64`: reads a binary file and wraps its payload as a PNG
data URL.  Fails (throws, modeled as `none`) when the file is absent. -/
def getFileAsBase64 (store : RepoStore) (path : RepoPath) : Option String :=
  match getFileContent store path with
  | some (.image b) => some ("data:image/png;base64," ++ b)
  | _ => none

/-- A character of the regex class `\w`, i.e. `[A-Za-z0-9_]`. -/
def isWordChar (c : Char) : Bool :=
  c.isAlpha || c.isDigit || c == '_'

/-- Consume an exact literal from the front of a character list. -/
def dropLiteral : List Char → List Char → Option (List Char)
  | [], cs => some cs
  | _ :: _, [] => none
  | p :: ps, c :: cs => if c = p then dropLiteral ps cs else none

/-- Match the anchored regex `^data:image\/\w+;base64,` and return the
remainder.  `\w+` is greedy and, since `;` is not a word character, the
greedy match is the only possible one. -/
def matchImageHeader (cs : List Char) : Option (List Char) :=
  match dropLiteral "data:image/".data cs with
  | none => none
  | some rest =>
      let w := rest.takeWhile isWordChar
      if w = [] then none
      else dropLiteral ";base64,".data (rest.drop w.length)

/-- `s.replace(/^data:image\/\w+;base64,/, "")`: strip a data-URL header,
leaving the bare base64 payload. -/
def stripImageDataHeader (s : String) : String :=
  match matchImageHeader s.data with
  | some rest => String.mk rest
  | none => s

/-- `s.replace(pat, "")` for a plain-string pattern: JS `String.replace`
with a string argument replaces only the first occurrence. -/
def replaceFirst (s pat : String) : String :=
  match s.splitOn pat with
  | [] => s
  | [t] => t
  | t :: u :: rest => t ++ String.intercalate pat (u :: rest)

/-- JS truthiness of a nullable string field. -/
def truthyStr : Option String → Bool
  | some s => s != ""
  | none => false

/-- One remote write issued by `saveVersion`, in order. -/
structure WriteOp where
  path : RepoPath
  content : FileData
deriving DecidableEq, Repr

/-- The body of `saveVersion`'s diagram loop: for a truthy `dataUrl`, push
the file name and write the stripped payload under
`versions/<id>/diagrams/<diagram.id>.png`. -/
def diagramStep (vid : String) (acc : List String × List WriteOp) (d : Diagram) :
    List String × List WriteOp :=
  match d.dataUrl with
  | some u =>
      if u != "" then
        (acc.1 ++ [d.id ++ ".png"],
         acc.2 ++ [⟨["versions", vid, "diagrams", d.id ++ ".png"],
                    .image (stripImageDataHeader u)⟩])
      else acc
  | none => acc

/-- `saveVersion` from the GitHub service, as the ordered list of remote
writes it issues: diagram images, then the refined image (if truthy), the
`version.json` record, the latest-specs mirror (only when `specs` is
non-empty), the build-plan markdown (if truthy), and the project record
with a fresh `updatedAt` and the latest-version pointer. -/
def saveVersion (project : Project) (version : DiagramVersion) (now : Nat) :
    List WriteOp :=
  let vid := version.id
  let dacc := version.diagrams.foldl (diagramStep vid) ([], [])
  let refinedWrites : List WriteOp :=
    match version.refinedImage with
    | some r =>
        if r != "" then
          [⟨["versions", vid, "refined", "refined.png"],
            .image (stripImageDataHeader r)⟩]
        else []
    | none => []
  let meta : VersionMetadata :=
    { id := version.id
      versionNumber := version.versionNumber
      timestamp := version.timestamp
      status := if version.status = .error then .error else .complete
      diagramFiles := dacc.1
      refinedFile := if truthyStr version.refinedImage then some "refined.png" else none
      specs := version.specs
      buildPlan := version.buildPlan }
  let specsWrites : List WriteOp :=
    if version.specs.length > 0 then
      [⟨["specs", "latest-specs.json"], .specsJson version.specs⟩]
    else []
  let planWrites : List WriteOp :=
    match version.buildPlan with
    | some p =>
        if p != "" then
          [⟨["specs", "v" ++ Nat.repr version.versionNumber ++ ".md"], .text p⟩]
        else []
    | none => []
  let projMeta : ProjectMetadata :=
    { version := "1.0"
      projectId := project.id
      projectName := project.name
      description := project.description
      createdAt := project.createdAt
      updatedAt := now
      latestVersionId := some version.id }
  dacc.2 ++ refinedWrites
    ++ [⟨["versions", vid, "version.json"], .versionMeta meta⟩]
    ++ specsWrites ++ planWrites
    ++ [⟨[".architectai", "project.json"], .projectMeta projMeta⟩]

/-- Apply a sequence of writes to a store, oldest first. -/
def applyWrites (store : RepoStore) (ws : List WriteOp) : RepoStore :=
  ws.foldl (fun st w => createOrUpdateFile st w.path w.content) store

/-- The diagrams `saveVersion`'s loop actually persists: those whose
`dataUrl` is truthy. -/
def dataDiagrams (ds : List Diagram) : List Diagram :=
  ds.filter fun d => truthyStr d.dataUrl

/-- Closed form of the `version.json` record `saveVersion` writes. -/
def savedMeta (v : DiagramVersion) : VersionMetadata where
  id := v.id
  versionNumber := v.versionNumber
  timestamp := v.timestamp
  status := if v.status = .error then .error else .complete
  diagramFiles := (dataDiagrams v.diagrams).map fun d => d.id ++ ".png"
  refinedFile := if truthyStr v.refinedImage then some "refined.png" else none
  specs := v.specs
  buildPlan := v.buildPlan

/-- Closed form of the project record `saveVersion` writes last. -/
def savedProjectMeta (p : Project) (v : DiagramVersion) (now : Nat) :
    ProjectMetadata where
  version := "1.0"
  projectId := p.id
  projectName := p.name
  description := p.description
  createdAt := p.createdAt
  updatedAt := now
  latestVersionId := some v.id

/-- The per-directory-entry body of `loadVersions`: read and parse
`versions/<name>/version.json`; on success, best-effort load the referenced
refined image and diagram files (a missing file degrades to an absent
field, a missing diagram is dropped); on any failure, `none` (the entry is
logged and skipped). -/
def loadVersionEntry (store : RepoStore) (name : String) : Option DiagramVersion :=
  match getFileContent store ["versions", name, "version.json"] with
  | some (.versionMeta m) =>
      let refinedImage : Option String :=
        match m.refinedFile with
        | some _ => getFileAsBase64 store ["versions", name, "refined", "refined.png"]
        | none => none
      let diagrams : List Diagram :=
        m.diagramFiles.enum.filterMap fun p =>
          match getFileAsBase64 store ["versions", name, "diagrams", p.2] with
          | some dataUrl =>
              some { id := replaceFirst p.2 ".png"
                     name := if p.1 = 0 then "Main Architecture"
                             else "Sub-Diagram " ++ Nat.repr p.1
                     dataUrl := some dataUrl
                     type := if p.1 = 0 then .main else .sub }
          | none => none
      some { id := m.id
             versionNumber := m.versionNumber
             timestamp := m.timestamp
             diagrams := diagrams
             refinedImage := refinedImage
             specs := m.specs
             buildPlan := m.buildPlan
             status := m.status.toVersionStatus }
  | _ => none

/-- `loadVersions`: fold over the remote listing of the `versions` directory
(`listing` is the sequence of sub-directory names, in whatever order the
remote API returns them), skipping entries that fail to load, then sort
ascending by `versionNumber` (`Array.prototype.sort` is stable). -/
def loadVersions (store : RepoStore) (listing : List String) : List DiagramVersion :=
  (listing.filterMap (loadVersionEntry store)).mergeSort
    fun a b => a.versionNumber ≤ b.versionNumber

/-! ### The `App.tsx` orchestration (`handleUpdate`, `handleApiError`) -/

/-- `startsWithChars cs pat`: does `cs` begin with `pat`? -/
def startsWithChars : List Char → List Char → Bool
  | _, [] => true
  | [], _ :: _ => false
  | c :: cs, p :: ps => c == p && startsWithChars cs ps

/-- `msg.includes(pat)` on character lists. -/
def hasSubChars (pat : List Char) : List Char → Bool
  | [] => startsWithChars [] pat
  | c :: cs => startsWithChars (c :: cs) pat || hasSubChars pat cs

/-- `msg.includes(pat)` from JS. -/
def includesSub (msg pat : String) : Bool :=
  hasSubChars pat.data msg.data

/-- The `genState` error message produced by `handleApiError`: access-denied
failures are rewritten, everything else surfaces verbatim. -/
def apiErrorDisplay (msg : String) : String :=
  if includesSub msg "Requested entity was not found"
      || includesSub msg "PERMISSION_DENIED" || includesSub msg "403" then
    "Access denied. Please select a valid API Key."
  else msg

/-- The environment `handleUpdate` closes over: the external services, and
whether a GitHub session and a current project are present. -/
structure AppEnv where
  svc : ExternalServices
  githubAuth : Bool
  currentProject : Option Project

/-- Observable outcome of one `handleUpdate` invocation. -/
structure AppResult where
  ledger : LedgerState
  writes : List WriteOp
  genError : Option String
  processingStatus : Option VersionStatus
deriving Repr

/-- The sketch-state update at the top of `handleUpdate`: store `dataUrl`
into the active diagram. -/
def updatedDiagramsOf (diagrams : List Diagram) (activeDiagramId dataUrl : String) :
    List Diagram :=
  diagrams.map fun d =>
    if d.id = activeDiagramId then { d with dataUrl := some dataUrl } else d

/-- `updatedDiagrams.filter(d => d.dataUrl !== null)`. -/
def validDiagramsOf (diagrams : List Diagram) : List Diagram :=
  diagrams.filter fun d => d.dataUrl.isSome

/-- `handleUpdate` from `App.tsx`: saves the active sketch, creates a
version (or errors out when every diagram is empty), runs the pipeline —
each progress callback patches the version's status in the ledger — then on
success patches in the artifacts and persists via `saveVersion` (when a
GitHub session and project exist), and on failure routes through
`handleApiError`, which marks the version `error` with the failure's
message. -/
def handleUpdate (env : AppEnv) (st : LedgerState) (diagrams : List Diagram)
    (activeDiagramId dataUrl : String) (now : Nat) : AppResult :=
  let updatedDiagrams := updatedDiagramsOf diagrams activeDiagramId dataUrl
  let validDiagrams := validDiagramsOf updatedDiagrams
  if validDiagrams.length = 0 then
    { ledger := st, writes := [],
      genError := some "Please draw something first.", processingStatus := none }
  else
    let created := createVersion st validDiagrams now
    let newVersion := created.1
    let st1 := created.2
    let images := validDiagrams.map fun d => d.dataUrl.getD ""
    let processed := processVersionInBackground env.svc now images
    let st2 := processed.2.foldl
      (fun s ev =>
        match ev with
        | .progress stat => updateVersion s newVersion.id { status := some stat }
        | _ => s)
      st1
    match processed.1 with
    | .ok r =>
        let st3 := updateVersion st2 newVersion.id
          { refinedImage := some (some r.refinedImage)
            specs := some r.specs
            status := some .complete }
        let writes :=
          match env.currentProject with
          | some proj =>
              if env.githubAuth then
                saveVersion proj
                  { newVersion with
                      refinedImage := some r.refinedImage
                      specs := r.specs
                      status := .complete
                      diagrams := validDiagrams }
                  now
              else []
          | none => []
        { ledger := st3, writes := writes, genError := none,
          processingStatus := none }
    | .error e =>
        let st3 := updateVersion st2 newVersion.id
          { status := some .error, error := some (some e) }
        { ledger := st3, writes := [], genError := some (apiErrorDisplay e),
          processingStatus := some .error }

/-- Decimal value of a digit string; a left inverse for `Nat.repr` used to
show component identifiers are distinct. -/
def digitsVal (cs : List Char) : Nat :=
  cs.foldl (fun a c => 10 * a + (c.toNat - 48)) 0

/-! ## Helper lemmas -/

theorem digitChar_toNat_sub (m : Nat) (h : m < 10) :
    (Nat.digitChar m).toNat - 48 = m := by
  interval_cases m <;> rfl

theorem digitsVal_snoc (cs : List Char) (c : Char) :
    digitsVal (cs ++ [c]) = 10 * digitsVal cs + (c.toNat - 48) := by
  simp [digitsVal, List.foldl_append]

theorem toDigitsCore_append (fuel n : Nat) (acc : List Char) :
    Nat.toDigitsCore 10 fuel n acc = Nat.toDigitsCore 10 fuel n [] ++ acc := by
  induction fuel generalizing n acc with
  | zero => simp [Nat.toDigitsCore]
  | succ fuel ih =>
    simp only [Nat.toDigitsCore]
    by_cases h : n / 10 = 0
    · simp [h]
    · simp only [if_neg h]
      rw [ih (n / 10) (Nat.digitChar (n % 10) :: acc),
        ih (n / 10) [Nat.digitChar (n % 10)], List.append_assoc]
      rfl

theorem digitsVal_toDigitsCore (fuel : Nat) :
    ∀ n, n < fuel → digitsVal (Nat.toDigitsCore 10 fuel n []) = n := by
  induction fuel with
  | zero => omega
  | succ fuel ih =>
    intro n hn
    simp only [Nat.toDigitsCore]
    by_cases h : n / 10 = 0
    · have h10 : n < 10 := (Nat.div_eq_zero_iff (by norm_num)).1 h
      have hm : n % 10 = n := Nat.mod_eq_of_lt h10
      simp [h, digitsVal, hm]
      exact digitChar_toNat_sub n h10
    · have hge : 10 ≤ n := by
        by_contra hcon
        exact h ((Nat.div_eq_zero_iff (by norm_num)).2 (by omega))
      have hlt : n / 10 < fuel := by
        have := Nat.div_lt_self (by omega : 0 < n) (by norm_num : 1 < 10)
        omega
      simp only [if_neg h]
      rw [toDigitsCore_append, digitsVal_snoc, ih (n / 10) hlt,
        digitChar_toNat_sub (n % 10) (Nat.mod_lt n (by omega))]
      omega

theorem repr_injective : Function.Injective Nat.repr := by
  intro m n h
  have hdig : Nat.toDigits 10 m = Nat.toDigits 10 n := by
    have h2 := congrArg String.data h
    simpa [Nat.repr, List.asString] using h2
  have hm : digitsVal (Nat.toDigits 10 m) = m :=
    digitsVal_toDigitsCore (m + 1) m (Nat.lt_succ_self m)
  have hn : digitsVal (Nat.toDigits 10 n) = n :=
    digitsVal_toDigitsCore (n + 1) n (Nat.lt_succ_self n)
  rw [hdig] at hm
  exact hm.symm.trans hn

theorem componentId_inj {t i j : Nat} (h : componentId i t = componentId j t) :
    i = j := by
  apply repr_injective
  have h2 := congrArg String.data h
  simp only [componentId, String.data_append, List.append_assoc] at h2
  have h3 := List.append_cancel_left h2
  have h4 := List.append_cancel_right h3
  cases hi : Nat.repr i with
  | mk di =>
    cases hj : Nat.repr j with
    | mk dj =>
      rw [hi, hj] at h4
      exact congrArg String.mk h4

theorem toComponentSpecs_ids (raw : List RawComponent) (now : Nat) :
    (toComponentSpecs raw now).map ComponentSpec.id
      = (List.range raw.length).map fun i => componentId i now := by
  simp only [toComponentSpecs, List.map_map]
  rw [← List.enum_map_fst raw, List.map_map]
  rfl

theorem toComponentSpecs_ids_nodup (raw : List RawComponent) (now : Nat) :
    ((toComponentSpecs raw now).map ComponentSpec.id).Nodup := by
  rw [toComponentSpecs_ids]
  exact (List.nodup_range raw.length).map fun a b hab => componentId_inj hab

theorem toComponentSpecs_userNotes (raw : List RawComponent) (now : Nat) :
    (toComponentSpecs raw now).map ComponentSpec.userNotes
      = List.replicate raw.length "" := by
  have key : ∀ l : List (Nat × RawComponent),
      (l.map fun p => ({ id := componentId p.1 now, name := p.2.name,
                         description := p.2.description,
                         userNotes := "" } : ComponentSpec)).map
        ComponentSpec.userNotes = List.replicate l.length "" := by
    intro l
    induction l with
    | nil => rfl
    | cons x xs ih => simp [ih, List.replicate_succ]
  rw [toComponentSpecs, key raw.enum, List.enum_length]

theorem applyUpdates_diagrams (v : DiagramVersion) (u : VersionUpdates)
    (h : u.diagrams = none) : (applyUpdates v u).diagrams = v.diagrams := by
  simp [applyUpdates, h]

theorem applyUpdates_versionNumber (v : DiagramVersion) (u : VersionUpdates)
    (h : u.versionNumber = none) :
    (applyUpdates v u).versionNumber = v.versionNumber := by
  simp [applyUpdates, h]

theorem applyOps_cons (st : LedgerState) (op : LedgerOp) (ops : List LedgerOp) :
    applyOps st (op :: ops) = applyOps (applyOp st op) ops := rfl

/-! ## C1 — sequence numbering of `createVersion` -/

/-- C1: the claim fails on the code.  `createVersion` computes
`versionNumber` from the render-time snapshot (`versions.length + 1`) while
appending through the functional updater, so two calls issued back-to-back
with no re-render in between both read the same snapshot: starting from an
empty ledger, both created versions are numbered 1, and the pending state
holds the numbers `[1, 1]` instead of `[1, 2]`. -/
theorem createVersion_backToBack_both_numbered_one :
    ((createVersion
        (createVersion initialLedger
          [{ id := "main"
             name := "Main Architecture"
             dataUrl := some "data:image/png;base64,AA"
             type := DiagramKind.main }] 5).2
        [{ id := "main"
           name := "Main Architecture"
           dataUrl := some "data:image/png;base64,AA"
           type := DiagramKind.main }] 5).2.current.map
      DiagramVersion.versionNumber) = [1, 1] := by decide

/-- With a re-render committed between the two calls, the second call sees
the appended state and the numbers are gapless, as the spec intends. -/
theorem createVersion_after_rerender_numbers_gapless :
    ((createVersion
        (rerender (createVersion initialLedger
          [{ id := "main"
             name := "Main Architecture"
             dataUrl := some "data:image/png;base64,AA"
             type := DiagramKind.main }] 5).2)
        [{ id := "main"
           name := "Main Architecture"
           dataUrl := some "data:image/png;base64,AA"
           type := DiagramKind.main }] 6).2.current.map
      DiagramVersion.versionNumber) = [1, 2] := by decide

/-! ## C3 — empty input fails fast -/

/-- C3: when the input list has zero non-empty images,
`processVersionInBackground` fails immediately with the validation error
`"No valid images to process"`, and its event trace is empty: no external
service is invoked and no status transition is emitted beyond the version's
initial `pending` state. -/
theorem processVersionInBackground_no_valid_images (svc : ExternalServices)
    (now : Nat) (images : List String) (h : validImagesOf images = []) :
    processVersionInBackground svc now images
      = (.error "No valid images to process", []) := by
  simp [processVersionInBackground, h]

/-- C3 witness: `process([""])` (one empty image, hence zero non-empty
entries) at a concrete oracle. -/
theorem processVersionInBackground_no_valid_images_witness :
    processVersionInBackground
        ⟨fun _ => .error "unused", fun _ => .error "unused"⟩ 3 [""]
      = (.error "No valid images to process", []) :=
  processVersionInBackground_no_valid_images
    ⟨fun _ => .error "unused", fun _ => .error "unused"⟩ 3 [""] (by decide)

/-! ## C4 — success path of the pipeline -/

/-- C4: on the success path (at least one non-empty image, both external
calls succeed) the pipeline's trace is exactly `refining`, the refinement
call, `specifying`, the analysis call, then `complete` — so the transitions
come in order, `refining` before the refinement call and `specifying`
before the analysis call — and it returns the refined image together with
the component list, in which every component has an empty user-notes field
and the identifiers are pairwise distinct. -/
theorem processVersionInBackground_success (svc : ExternalServices) (now : Nat)
    (images : List String) (r : String) (raw : List RawComponent)
    (hval : validImagesOf images ≠ [])
    (href : svc.refineSketch (validImagesOf images) = .ok r)
    (hana : svc.analyzeDiagram r = .ok raw) :
    processVersionInBackground svc now images
        = (.ok ⟨r, toComponentSpecs raw now⟩,
           [.progress .refining, .refineCall (validImagesOf images),
            .progress .specifying, .analyzeCall r, .progress .complete])
      ∧ (toComponentSpecs raw now).map ComponentSpec.userNotes
          = List.replicate raw.length ""
      ∧ ((toComponentSpecs raw now).map ComponentSpec.id).Nodup := by
  refine ⟨?_, toComponentSpecs_userNotes raw now, toComponentSpecs_ids_nodup raw now⟩
  have hlen : ¬ (validImagesOf images).length = 0 := by
    simpa [List.length_eq_zero] using hval
  simp [processVersionInBackground, hlen, href, hana]

/-- C4 witness: a concrete success run with one sketch and one raw
component. -/
theorem processVersionInBackground_success_witness :
    processVersionInBackground
        ⟨fun _ => .ok "R", fun _ => .ok [{ name := "API Gateway", description := "routes" }]⟩
        7 ["sketch"]
        = (.ok ⟨"R", toComponentSpecs [{ name := "API Gateway", description := "routes" }] 7⟩,
           [.progress .refining, .refineCall (validImagesOf ["sketch"]),
            .progress .specifying, .analyzeCall "R", .progress .complete])
      ∧ (toComponentSpecs [{ name := "API Gateway", description := "routes" }] 7).map
          ComponentSpec.userNotes
          = List.replicate
              ([{ name := "API Gateway", description := "routes" }] : List RawComponent).length ""
      ∧ ((toComponentSpecs [{ name := "API Gateway", description := "routes" }] 7).map
          ComponentSpec.id).Nodup :=
  processVersionInBackground_success
    ⟨fun _ => .ok "R", fun _ => .ok [{ name := "API Gateway", description := "routes" }]⟩
    7 ["sketch"] "R" [{ name := "API Gateway", description := "routes" }]
    (by decide) rfl rfl

/-! ## C6 — `updateVersion` merges, and is a no-op on a missing id -/

/-- C6: `updateVersion` leaves the rendered snapshot alone and maps the
pending state, merging the patch fields into exactly the versions whose id
matches; when no version in the ledger has the id, it is a no-op that
returns the state unchanged (and, being total, cannot throw). -/
theorem updateVersion_merges_or_noop (st : LedgerState) (vid : String)
    (u : VersionUpdates) :
    (updateVersion st vid u).rendered = st.rendered
    ∧ (updateVersion st vid u).current
        = st.current.map (fun v => if v.id = vid then applyUpdates v u else v)
    ∧ ((∀ v ∈ st.current, v.id ≠ vid) → updateVersion st vid u = st) := by
  refine ⟨rfl, rfl, fun h => ?_⟩
  have hmap : st.current.map (fun v => if v.id = vid then applyUpdates v u else v)
      = st.current := by
    conv_rhs => rw [← List.map_id st.current]
    exact List.map_congr_left fun v hv => by simp [h v hv]
  unfold updateVersion
  rw [hmap]

/-- C6 witness: patching a ledger whose single version does not carry the
requested id leaves it untouched. -/
theorem updateVersion_missing_id_noop_witness :
    updateVersion
        ⟨[], [{ id := "v-9"
                versionNumber := 1
                timestamp := 9
                diagrams := []
                refinedImage := none
                specs := []
                status := VersionStatus.complete }]⟩
        "absent" { status := some .error }
      = ⟨[], [{ id := "v-9"
                versionNumber := 1
                timestamp := 9
                diagrams := []
                refinedImage := none
                specs := []
                status := VersionStatus.complete }]⟩ :=
  (updateVersion_merges_or_noop _ _ _).2.2 (by decide)

/-! ## C7 — immutability of the diagrams snapshot and sequence number -/

/-- C7 is refuted as stated: `updateVersion` spreads *any* patch, so a patch
that itself carries a `versionNumber` (or `diagrams`) field does change the
matching version: patching `{ versionNumber := 2 }` onto the version
numbered 1 leaves the ledger holding number `[2]`. -/
theorem updateVersion_changes_versionNumber :
    ((updateVersion
        ⟨[], [{ id := "v-3"
                versionNumber := 1
                timestamp := 3
                diagrams := []
                refinedImage := none
                specs := []
                status := VersionStatus.complete }]⟩
        "v-3" { versionNumber := some 2 }).current.map
      DiagramVersion.versionNumber) = [2] := by decide

/-- C7 (amended): under every sequence of ledger operations whose patches do
not themselves carry the `diagrams` or `versionNumber` fields — which is
every patch the application issues — each existing version keeps its
diagrams snapshot and its sequence number (the ledger only appends on
create, and benign merges preserve both fields). -/
theorem ledger_preserves_diagrams_and_numbers (st : LedgerState)
    (ops : List LedgerOp) (hops : ∀ op ∈ ops, benignOp op = true) :
    ∃ rest, (applyOps st ops).current.map (fun v => (v.diagrams, v.versionNumber))
      = st.current.map (fun v => (v.diagrams, v.versionNumber)) ++ rest := by
  induction ops generalizing st with
  | nil => exact ⟨[], by simp [applyOps]⟩
  | cons op ops ih =>
    obtain ⟨rest, hr⟩ :=
      ih (applyOp st op) fun o ho => hops o (List.mem_cons_of_mem op ho)
    have hop := hops op (List.mem_cons_self op ops)
    have hstep : ∃ r0, (applyOp st op).current.map (fun v => (v.diagrams, v.versionNumber))
        = st.current.map (fun v => (v.diagrams, v.versionNumber)) ++ r0 := by
      cases op with
      | create ds t =>
        exact ⟨[(ds, st.rendered.length + 1)], by simp [applyOp, createVersion]⟩
      | render => exact ⟨[], by simp [applyOp, rerender]⟩
      | update vid u =>
        obtain ⟨hd, hv⟩ : u.diagrams = none ∧ u.versionNumber = none := by
          have := hop
          simp only [benignOp, Bool.and_eq_true, Option.isNone_iff_eq_none] at this
          exact this
        refine ⟨[], ?_⟩
        rw [List.append_nil]
        simp only [applyOp, updateVersion, List.map_map]
        apply List.map_congr_left
        intro v hv2
        by_cases hid : v.id = vid
        · simp [Function.comp, hid, applyUpdates_diagrams v u hd,
            applyUpdates_versionNumber v u hv]
        · simp [Function.comp, hid]
    obtain ⟨r0, h0⟩ := hstep
    exact ⟨r0 ++ rest, by rw [applyOps_cons, hr, h0, List.append_assoc]⟩

/-- C7 amended witness: a benign status patch over a one-version ledger. -/
theorem ledger_preserves_diagrams_and_numbers_witness :
    ∃ rest,
      (applyOps
          ⟨[], [{ id := "v-4"
                  versionNumber := 1
                  timestamp := 4
                  diagrams := []
                  refinedImage := none
                  specs := []
                  status := VersionStatus.pending }]⟩
          [.update "v-4" { status := some .refining }]).current.map
        (fun v => (v.diagrams, v.versionNumber))
      = (⟨[], [{ id := "v-4"
                 versionNumber := 1
                 timestamp := 4
                 diagrams := []
                 refinedImage := none
                 specs := []
                 status := VersionStatus.pending }]⟩ : LedgerState).current.map
          (fun v => (v.diagrams, v.versionNumber)) ++ rest :=
  ledger_preserves_diagrams_and_numbers _ _ (by decide)

/-! ## C5 — refinement failure leaves an `error` version and writes nothing -/

theorem applyUpdates_id (v : DiagramVersion) (u : VersionUpdates)
    (h : u.id = none) : (applyUpdates v u).id = v.id := by
  simp [applyUpdates, h]

theorem map_patch_append (cur : List DiagramVersion) (w : DiagramVersion)
    (vid : String) (u : VersionUpdates) (hw : w.id = vid)
    (h : ∀ v ∈ cur, v.id ≠ vid) :
    (cur ++ [w]).map (fun v => if v.id = vid then applyUpdates v u else v)
      = cur ++ [applyUpdates w u] := by
  rw [List.map_append]
  congr 1
  · conv_rhs => rw [← List.map_id cur]
    exact List.map_congr_left fun v hv => by simp [h v hv]
  · simp [hw]

/-- C5: when the pipeline's refinement stage fails with an external error,
`handleUpdate` leaves the ledger with the freshly created version marked
`error` and carrying the failure's message, its refined image still `null`
and its specs still empty; no remote write (in particular no specs or
build-plan file) is ever issued for that version, and the error is surfaced
through `handleApiError`'s display rule. -/
theorem handleUpdate_refinement_failure (env : AppEnv) (st : LedgerState)
    (diagrams : List Diagram) (aid du : String) (now : Nat) (e : String)
    (hvd : validDiagramsOf (updatedDiagramsOf diagrams aid du) ≠ [])
    (himg : validImagesOf ((validDiagramsOf (updatedDiagramsOf diagrams aid du)).map
        fun d => d.dataUrl.getD "") ≠ [])
    (hfail : env.svc.refineSketch
        (validImagesOf ((validDiagramsOf (updatedDiagramsOf diagrams aid du)).map
          fun d => d.dataUrl.getD "")) = .error e)
    (hfresh : ∀ v ∈ st.current, v.id ≠ "v-" ++ Nat.repr now) :
    ∃ v, (handleUpdate env st diagrams aid du now).ledger.current = st.current ++ [v]
      ∧ v.status = .error
      ∧ v.error = some e
      ∧ v.refinedImage = none
      ∧ v.specs = []
      ∧ (handleUpdate env st diagrams aid du now).writes = []
      ∧ (handleUpdate env st diagrams aid du now).genError = some (apiErrorDisplay e) := by
  have hvd0 : ¬ (validDiagramsOf (updatedDiagramsOf diagrams aid du)).length = 0 := by
    simpa [List.length_eq_zero] using hvd
  have hlen2 : ¬ (validImagesOf ((validDiagramsOf (updatedDiagramsOf diagrams aid du)).map
      fun d => d.dataUrl.getD "")).length = 0 := by
    simpa [List.length_eq_zero] using himg
  have hproc : processVersionInBackground env.svc now
      ((validDiagramsOf (updatedDiagramsOf diagrams aid du)).map fun d => d.dataUrl.getD "")
      = (.error e,
         [.progress .refining,
          .refineCall (validImagesOf ((validDiagramsOf (updatedDiagramsOf diagrams aid du)).map
            fun d => d.dataUrl.getD ""))]) := by
    simp [processVersionInBackground, hlen2, hfail]
  refine ⟨applyUpdates
      (applyUpdates (createVersion st (validDiagramsOf (updatedDiagramsOf diagrams aid du)) now).1
        { status := some .refining })
      { status := some .error, error := some (some e) }, ?_, by rfl, by rfl, by rfl, by rfl, ?_, ?_⟩
  · have hid1 : (createVersion st (validDiagramsOf (updatedDiagramsOf diagrams aid du)) now).1.id
        = "v-" ++ Nat.repr now := rfl
    have hfresh2 : ∀ v ∈ st.current,
        v.id ≠ (createVersion st (validDiagramsOf (updatedDiagramsOf diagrams aid du)) now).1.id := by
      rw [hid1]; exact hfresh
    have h1 : (updateVersion
          (createVersion st (validDiagramsOf (updatedDiagramsOf diagrams aid du)) now).2
          (createVersion st (validDiagramsOf (updatedDiagramsOf diagrams aid du)) now).1.id
          { status := some .refining }).current
        = st.current
          ++ [applyUpdates
                (createVersion st (validDiagramsOf (updatedDiagramsOf diagrams aid du)) now).1
                { status := some .refining }] :=
      map_patch_append st.current _ _ _ rfl hfresh2
    have h2 : (updateVersion
          (updateVersion
            (createVersion st (validDiagramsOf (updatedDiagramsOf diagrams aid du)) now).2
            (createVersion st (validDiagramsOf (updatedDiagramsOf diagrams aid du)) now).1.id
            { status := some .refining })
          (createVersion st (validDiagramsOf (updatedDiagramsOf diagrams aid du)) now).1.id
          { status := some .error, error := some (some e) }).current
        = st.current
          ++ [applyUpdates
                (applyUpdates
                  (createVersion st (validDiagramsOf (updatedDiagramsOf diagrams aid du)) now).1
                  { status := some .refining })
                { status := some .error, error := some (some e) }] := by
      show ((updateVersion
          (createVersion st (validDiagramsOf (updatedDiagramsOf diagrams aid du)) now).2
          (createVersion st (validDiagramsOf (updatedDiagramsOf diagrams aid du)) now).1.id
          { status := some .refining }).current.map _) = _
      rw [h1]
      exact map_patch_append st.current _ _ _ (applyUpdates_id _ _ rfl) hfresh2
    simp only [handleUpdate, hproc, if_neg hvd0, List.foldl_cons, List.foldl_nil]
    exact h2
  · simp [handleUpdate, hproc, hvd0, hvd]
  · simp [handleUpdate, hproc, hvd0, hvd]

/-- C5 witness: a one-sketch update against an oracle whose refinement call
fails with `"boom"`. -/
theorem handleUpdate_refinement_failure_witness :
    ∃ v, (handleUpdate
        ⟨⟨fun _ => .error "boom", fun _ => .error "unused"⟩, false, none⟩
        initialLedger
        [{ id := "main"
           name := "Main Architecture"
           dataUrl := none
           type := DiagramKind.main }]
        "main" "data:image/png;base64,AA" 11).ledger.current
      = initialLedger.current ++ [v]
      ∧ v.status = .error
      ∧ v.error = some "boom"
      ∧ v.refinedImage = none
      ∧ v.specs = []
      ∧ (handleUpdate
          ⟨⟨fun _ => .error "boom", fun _ => .error "unused"⟩, false, none⟩
          initialLedger
          [{ id := "main"
             name := "Main Architecture"
             dataUrl := none
             type := DiagramKind.main }]
          "main" "data:image/png;base64,AA" 11).writes = []
      ∧ (handleUpdate
          ⟨⟨fun _ => .error "boom", fun _ => .error "unused"⟩, false, none⟩
          initialLedger
          [{ id := "main"
             name := "Main Architecture"
             dataUrl := none
             type := DiagramKind.main }]
          "main" "data:image/png;base64,AA" 11).genError
        = some (apiErrorDisplay "boom") :=
  handleUpdate_refinement_failure
    ⟨⟨fun _ => .error "boom", fun _ => .error "unused"⟩, false, none⟩
    initialLedger
    [{ id := "main"
       name := "Main Architecture"
       dataUrl := none
       type := DiagramKind.main }]
    "main" "data:image/png;base64,AA" 11 "boom"
    (by decide) (by decide) rfl (by decide)

/-! ## Store lemmas -/

theorem applyWrites_eq (store : RepoStore) (ws : List WriteOp) :
    applyWrites store ws = (ws.map fun w => (w.path, w.content)).reverse ++ store := by
  induction ws generalizing store with
  | nil => rfl
  | cons w ws ih =>
    show applyWrites (createOrUpdateFile store w.path w.content) ws = _
    rw [ih]
    simp [createOrUpdateFile]

theorem getFileContent_append (s1 s2 : RepoStore) (p : RepoPath) :
    getFileContent (s1 ++ s2) p = (getFileContent s1 p).or (getFileContent s2 p) := by
  unfold getFileContent
  rw [List.find?_append]
  cases s1.find? fun e => e.1 == p <;> simp

theorem getFileContent_cons (e : RepoPath × FileData) (s : RepoStore) (p : RepoPath) :
    getFileContent (e :: s) p = if e.1 = p then some e.2 else getFileContent s p := by
  unfold getFileContent
  by_cases h : e.1 = p
  · simp [List.find?_cons, h]
  · simp [List.find?_cons, h]

theorem find_entry_of_nodup (l : List (RepoPath × FileData))
    (hnd : (l.map Prod.fst).Nodup) (e : RepoPath × FileData) (he : e ∈ l) :
    getFileContent l e.1 = some e.2 := by
  induction l with
  | nil => cases he
  | cons a l ih =>
    rw [getFileContent_cons]
    rcases List.mem_cons.1 he with rfl | hmem
    · simp
    · have hne : a.1 ≠ e.1 := by
        intro hEq
        have hk : e.1 ∈ l.map Prod.fst := List.mem_map_of_mem Prod.fst hmem
        rw [← hEq] at hk
        exact (List.nodup_cons.1 hnd).1 hk
      rw [if_neg hne]
      exact ih (List.nodup_cons.1 hnd).2 hmem

theorem getFileContent_applyWrites_nodup (store : RepoStore) (ws : List WriteOp)
    (hnd : (ws.map WriteOp.path).Nodup) (w : WriteOp) (hw : w ∈ ws) :
    getFileContent (applyWrites store ws) w.path = some w.content := by
  rw [applyWrites_eq, getFileContent_append]
  have h1 : getFileContent (ws.map fun x => (x.path, x.content)).reverse w.path
      = some w.content := by
    have hk : ((ws.map fun x => (x.path, x.content)).reverse.map Prod.fst).Nodup := by
      rw [List.map_reverse, List.map_map]
      exact List.nodup_reverse.2 hnd
    have hm : ((w.path, w.content) : RepoPath × FileData)
        ∈ (ws.map fun x => (x.path, x.content)).reverse := by
      rw [List.mem_reverse]
      exact List.mem_map_of_mem _ hw
    exact find_entry_of_nodup _ hk (w.path, w.content) hm
  rw [h1]
  rfl

theorem getFileContent_applyWrites_not_written (store : RepoStore)
    (ws : List WriteOp) (p : RepoPath) (h : ∀ w ∈ ws, w.path ≠ p) :
    getFileContent (applyWrites store ws) p = getFileContent store p := by
  rw [applyWrites_eq, getFileContent_append]
  have h1 : getFileContent (ws.map fun x => (x.path, x.content)).reverse p = none := by
    unfold getFileContent
    have hf : (ws.map fun x => (x.path, x.content)).reverse.find? (fun e => e.1 == p)
        = none := by
      rw [List.find?_eq_none]
      intro x hx
      rw [List.mem_reverse] at hx
      obtain ⟨w, hw, rfl⟩ := List.mem_map.1 hx
      simpa using h w hw
    rw [hf]
    rfl
  rw [h1]
  simp

theorem getFileContent_revmap_none (ws : List WriteOp) (p : RepoPath)
    (h : ∀ w ∈ ws, w.path ≠ p) :
    getFileContent (ws.map fun x => (x.path, x.content)).reverse p = none := by
  unfold getFileContent
  have hf : (ws.map fun x => (x.path, x.content)).reverse.find? (fun e => e.1 == p)
      = none := by
    rw [List.find?_eq_none]
    intro x hx
    rw [List.mem_reverse] at hx
    obtain ⟨w, hw, rfl⟩ := List.mem_map.1 hx
    simpa using h w hw
  rw [hf]
  rfl

theorem getFileContent_applyWrites_last_at (store : RepoStore)
    (pre post : List WriteOp) (w : WriteOp)
    (hpost : ∀ x ∈ post, x.path ≠ w.path) :
    getFileContent (applyWrites store (pre ++ w :: post)) w.path = some w.content := by
  rw [applyWrites_eq, getFileContent_append]
  have hrev : ((pre ++ w :: post).map fun x => (x.path, x.content)).reverse
      = (post.map fun x => (x.path, x.content)).reverse
        ++ (w.path, w.content)
          :: (pre.map fun x => (x.path, x.content)).reverse := by
    simp
  rw [hrev, getFileContent_append, getFileContent_revmap_none post w.path hpost,
    getFileContent_cons, if_pos rfl]
  rfl

theorem stripImageDataHeader_png (x : String) :
    stripImageDataHeader ("data:image/png;base64," ++ x) = x := rfl

theorem foldl_diagramStep (vid : String) (ds : List Diagram)
    (fs : List String) (ws : List WriteOp) :
    ds.foldl (diagramStep vid) (fs, ws)
      = (fs ++ (dataDiagrams ds).map (fun d => d.id ++ ".png"),
         ws ++ (dataDiagrams ds).map fun d =>
           (⟨["versions", vid, "diagrams", d.id ++ ".png"],
             .image (stripImageDataHeader (d.dataUrl.getD ""))⟩ : WriteOp)) := by
  induction ds generalizing fs ws with
  | nil => simp [dataDiagrams]
  | cons d ds ih =>
    rw [List.foldl_cons]
    cases hd : d.dataUrl with
    | none =>
      rw [show diagramStep vid (fs, ws) d = (fs, ws) by simp [diagramStep, hd]]
      rw [ih]
      simp [dataDiagrams, List.filter_cons, truthyStr, hd]
    | some u =>
      by_cases hu : (u != "") = true
      · rw [show diagramStep vid (fs, ws) d
            = (fs ++ [d.id ++ ".png"],
               ws ++ [⟨["versions", vid, "diagrams", d.id ++ ".png"],
                      .image (stripImageDataHeader u)⟩]) by
          simp [diagramStep, hd, hu]]
        rw [ih]
        simp [dataDiagrams, List.filter_cons, truthyStr, hd, hu]
      · rw [show diagramStep vid (fs, ws) d = (fs, ws) by simp [diagramStep, hd, hu]]
        rw [ih]
        simp [dataDiagrams, List.filter_cons, truthyStr, hd, hu]

theorem saveVersion_eq (project : Project) (v : DiagramVersion) (now : Nat) :
    saveVersion project v now
      = ((dataDiagrams v.diagrams).map fun d =>
           (⟨["versions", v.id, "diagrams", d.id ++ ".png"],
             .image (stripImageDataHeader (d.dataUrl.getD ""))⟩ : WriteOp))
        ++ (if truthyStr v.refinedImage then
              [⟨["versions", v.id, "refined", "refined.png"],
                .image (stripImageDataHeader (v.refinedImage.getD ""))⟩]
            else [])
        ++ [⟨["versions", v.id, "version.json"], .versionMeta (savedMeta v)⟩]
        ++ (if v.specs.length > 0 then
              [⟨["specs", "latest-specs.json"], .specsJson v.specs⟩]
            else [])
        ++ (if truthyStr v.buildPlan then
              [⟨["specs", "v" ++ Nat.repr v.versionNumber ++ ".md"],
                .text (v.buildPlan.getD "")⟩]
            else [])
        ++ [⟨[".architectai", "project.json"],
             .projectMeta (savedProjectMeta project v now)⟩] := by
  unfold saveVersion
  simp only [foldl_diagramStep]
  cases hr : v.refinedImage with
  | none =>
    cases hb : v.buildPlan with
    | none => simp [savedMeta, savedProjectMeta, truthyStr, hr, hb]
    | some p => simp [savedMeta, savedProjectMeta, truthyStr, hr, hb]
  | some r =>
    cases hb : v.buildPlan with
    | none => simp [savedMeta, savedProjectMeta, truthyStr, hr, hb]
    | some p => simp [savedMeta, savedProjectMeta, truthyStr, hr, hb]

theorem string_append_right_cancel {a b c : String} (h : a ++ c = b ++ c) :
    a = b := by
  have h2 := congrArg String.data h
  simp only [String.data_append] at h2
  have h3 := List.append_cancel_right h2
  cases a with
  | mk da =>
    cases b with
    | mk db => exact congrArg String.mk h3

theorem v_md_ne_latest (x : String) :
    ("v" ++ x ++ ".md") ≠ "latest-specs.json" := by
  intro h
  have h3 := congrArg (fun s : String => s.data.head?) h
  exact absurd h3 (by decide : ¬ ((some 'v' : Option Char) = some 'l'))

/-! ## C8 — write order of `saveVersion` -/

/-- C8 is refuted as stated: a save call for a version whose spec list is
empty issues no write at all to the project-level latest-specs file, while
the claim lists that write unconditionally. -/
theorem saveVersion_skips_latestSpecs_on_empty_specs :
    ((saveVersion
        { id := "p1"
          name := "Proj"
          description := "d"
          githubRepo := { owner := "o"
                          name := "r"
                          fullName := "o/r"
                          url := "u"
                          htmlUrl := "h" }
          createdAt := 1
          updatedAt := 1 }
        { id := "v-20"
          versionNumber := 1
          timestamp := 20
          diagrams := [{ id := "main"
                         name := "Main Architecture"
                         dataUrl := some "data:image/png;base64,AA"
                         type := DiagramKind.main }]
          refinedImage := some "data:image/png;base64,BB"
          specs := []
          status := VersionStatus.complete }
        21).all fun w => w.path != ["specs", "latest-specs.json"]) = true := by
  decide

/-- C8 (amended): `saveVersion` issues its remote writes in exactly this
order: (a) one image write per data-bearing diagram, under
`versions/<id>/diagrams/`; (b) the refined image, if present, under
`versions/<id>/refined/`; (c) the `version.json` record, whose
`diagramFiles` field names exactly the files written in (a); (d) the
project-level latest-specs file — *only when the spec list is non-empty*;
(e) the build-plan file named `v<sequenceNumber>.md`, if a plan is present;
(f) the project metadata record carrying `updatedAt := now` and the pointer
to this version's id. -/
theorem saveVersion_write_order (project : Project) (v : DiagramVersion)
    (now : Nat) :
    (saveVersion project v now
      = ((dataDiagrams v.diagrams).map fun d =>
           (⟨["versions", v.id, "diagrams", d.id ++ ".png"],
             .image (stripImageDataHeader (d.dataUrl.getD ""))⟩ : WriteOp))
        ++ (if truthyStr v.refinedImage then
              [⟨["versions", v.id, "refined", "refined.png"],
                .image (stripImageDataHeader (v.refinedImage.getD ""))⟩]
            else [])
        ++ [⟨["versions", v.id, "version.json"], .versionMeta (savedMeta v)⟩]
        ++ (if v.specs.length > 0 then
              [⟨["specs", "latest-specs.json"], .specsJson v.specs⟩]
            else [])
        ++ (if truthyStr v.buildPlan then
              [⟨["specs", "v" ++ Nat.repr v.versionNumber ++ ".md"],
                .text (v.buildPlan.getD "")⟩]
            else [])
        ++ [⟨[".architectai", "project.json"],
             .projectMeta (savedProjectMeta project v now)⟩])
    ∧ (savedMeta v).diagramFiles
        = (dataDiagrams v.diagrams).map (fun d => d.id ++ ".png")
    ∧ (savedProjectMeta project v now).updatedAt = now
    ∧ (savedProjectMeta project v now).latestVersionId = some v.id :=
  ⟨saveVersion_eq project v now, rfl, rfl, rfl⟩

/-! ## C10 — the persisted status is binary -/

/-- C10: the status that `saveVersion` writes into the durable
`version.json` record is `error` exactly when the in-memory version is in
the `error` state, and `complete` in every other case — the intermediate
pipeline states `pending`, `refining` and `specifying` are all coerced to
`complete`, so the durable layout never records an intermediate state. -/
theorem persisted_status_binary (store : RepoStore) (project : Project)
    (v : DiagramVersion) (now : Nat) :
    ∃ m : VersionMetadata,
      getFileContent (applyWrites store (saveVersion project v now))
          ["versions", v.id, "version.json"] = some (.versionMeta m)
      ∧ (m.status = .error ↔ v.status = .error)
      ∧ (m.status = .complete ↔ v.status ≠ .error) := by
  refine ⟨savedMeta v, ?_, ?_, ?_⟩
  · have hshape : saveVersion project v now
        = (((dataDiagrams v.diagrams).map fun d =>
              (⟨["versions", v.id, "diagrams", d.id ++ ".png"],
                .image (stripImageDataHeader (d.dataUrl.getD ""))⟩ : WriteOp))
            ++ (if truthyStr v.refinedImage then
                  [⟨["versions", v.id, "refined", "refined.png"],
                    .image (stripImageDataHeader (v.refinedImage.getD ""))⟩]
                else []))
          ++ (⟨["versions", v.id, "version.json"],
               .versionMeta (savedMeta v)⟩ : WriteOp)
            :: ((if v.specs.length > 0 then
                   [⟨["specs", "latest-specs.json"], .specsJson v.specs⟩]
                 else [])
              ++ (if truthyStr v.buildPlan then
                    [⟨["specs", "v" ++ Nat.repr v.versionNumber ++ ".md"],
                      .text (v.buildPlan.getD "")⟩]
                  else [])
              ++ [⟨[".architectai", "project.json"],
                   .projectMeta (savedProjectMeta project v now)⟩]) := by
      rw [saveVersion_eq]
      simp [List.append_assoc]
    rw [hshape]
    have hpost : ∀ x ∈ ((if v.specs.length > 0 then
             [(⟨["specs", "latest-specs.json"], .specsJson v.specs⟩ : WriteOp)]
           else [])
          ++ (if truthyStr v.buildPlan then
                [⟨["specs", "v" ++ Nat.repr v.versionNumber ++ ".md"],
                  .text (v.buildPlan.getD "")⟩]
              else [])
          ++ [⟨[".architectai", "project.json"],
               .projectMeta (savedProjectMeta project v now)⟩]),
        x.path ≠ (⟨["versions", v.id, "version.json"],
                   .versionMeta (savedMeta v)⟩ : WriteOp).path := by
      intro x hx hEq
      have hhead : x.path.head? = some "specs" ∨ x.path.head? = some ".architectai" := by
        rcases List.mem_append.1 hx with h1 | h1
        · rcases List.mem_append.1 h1 with h2 | h2
          · split at h2
            · rw [List.mem_singleton] at h2; subst h2; left; rfl
            · exact absurd h2 (List.not_mem_nil x)
          · split at h2
            · rw [List.mem_singleton] at h2; subst h2; left; rfl
            · exact absurd h2 (List.not_mem_nil x)
        · rw [List.mem_singleton] at h1; subst h1; right; rfl
      rw [hEq] at hhead
      rcases hhead with hh | hh
      · exact absurd hh (by decide : ¬ ((some "versions" : Option String) = some "specs"))
      · exact absurd hh
          (by decide : ¬ ((some "versions" : Option String) = some ".architectai"))
    exact getFileContent_applyWrites_last_at store _ _ _ hpost
  · cases hs : v.status <;> simp [savedMeta, hs]
  · cases hs : v.status <;> simp [savedMeta, hs]

/-! ## C9 — per-entry failure isolation and sorted reconciliation -/

/-- C9: during reconciliation, an entry whose metadata is missing or
malformed (`loadVersionEntry` yields `none`) is simply skipped — the load
over any listing containing it equals the load over the listing without it,
so all other version directories still load; the final result is sorted
ascending by sequence number for *every* listing order; a missing
referenced refined file degrades to an absent field (the entry still
loads, with `refinedImage = none` and the rest of its record intact); and
a missing referenced diagram file likewise drops only that diagram: the
entry still loads with its specs and sequence number intact, the loaded
diagrams carry, in order, exactly the payloads of the referenced files
that *are* readable, and their count falls strictly below the number of
referenced files. -/
theorem loadVersions_isolation_and_sorted (store : RepoStore)
    (l1 l2 : List String) (n : String)
    (hfail : loadVersionEntry store n = none) :
    loadVersions store (l1 ++ n :: l2) = loadVersions store (l1 ++ l2)
    ∧ (loadVersions store (l1 ++ n :: l2)).Pairwise
        (fun a b => a.versionNumber ≤ b.versionNumber)
    ∧ (∀ nm (m : VersionMetadata),
        getFileContent store ["versions", nm, "version.json"]
            = some (.versionMeta m)
        → getFileAsBase64 store ["versions", nm, "refined", "refined.png"] = none
        → ∃ w, loadVersionEntry store nm = some w
            ∧ w.refinedImage = none
            ∧ w.specs = m.specs
            ∧ w.versionNumber = m.versionNumber)
    ∧ ∀ nm (m : VersionMetadata) (f : String),
        getFileContent store ["versions", nm, "version.json"]
            = some (.versionMeta m)
        → f ∈ m.diagramFiles
        → getFileAsBase64 store ["versions", nm, "diagrams", f] = none
        → ∃ w, loadVersionEntry store nm = some w
            ∧ w.specs = m.specs
            ∧ w.versionNumber = m.versionNumber
            ∧ w.diagrams.map Diagram.dataUrl
                = ((m.diagramFiles.filter fun g =>
                    (getFileAsBase64 store ["versions", nm, "diagrams", g]).isSome).map
                  fun g => getFileAsBase64 store ["versions", nm, "diagrams", g])
            ∧ w.diagrams.length < m.diagramFiles.length := by
  refine ⟨?_, ?_, ?_, ?_⟩
  · simp [loadVersions, List.filterMap_append, List.filterMap_cons, hfail]
  · have htrans : ∀ a b c : DiagramVersion,
        decide (a.versionNumber ≤ b.versionNumber) = true
        → decide (b.versionNumber ≤ c.versionNumber) = true
        → decide (a.versionNumber ≤ c.versionNumber) = true := by
      intro a b c hab hbc
      simp only [decide_eq_true_eq] at hab hbc ⊢
      omega
    have htotal : ∀ a b : DiagramVersion,
        (decide (a.versionNumber ≤ b.versionNumber)
          || decide (b.versionNumber ≤ a.versionNumber)) = true := by
      intro a b
      simp only [Bool.or_eq_true, decide_eq_true_eq]
      omega
    have hs := List.sorted_mergeSort htrans htotal
      ((l1 ++ n :: l2).filterMap (loadVersionEntry store))
    exact hs.imp fun hab => of_decide_eq_true hab
  · intro nm m hmeta hrf
    unfold loadVersionEntry
    rw [hmeta]
    refine ⟨_, rfl, ?_, rfl, rfl⟩
    cases hm : m.refinedFile <;> simp [hrf, hm]
  · intro nm m f hmeta hf hnone
    have hload : ∀ (files : List String) (k : Nat),
        (((files.enumFrom k).filterMap fun p =>
            (match getFileAsBase64 store ["versions", nm, "diagrams", p.2] with
             | some dataUrl =>
                 some { id := replaceFirst p.2 ".png"
                        name := if p.1 = 0 then "Main Architecture"
                                else "Sub-Diagram " ++ Nat.repr p.1
                        dataUrl := some dataUrl
                        type := if p.1 = 0 then DiagramKind.main
                                else DiagramKind.sub }
             | none => none : Option Diagram)).map Diagram.dataUrl)
          = (files.filter fun g =>
              (getFileAsBase64 store ["versions", nm, "diagrams", g]).isSome).map
              fun g => getFileAsBase64 store ["versions", nm, "diagrams", g] := by
      intro files
      induction files with
      | nil => intro k; rfl
      | cons f0 fs ih =>
        intro k
        rw [show List.enumFrom k (f0 :: fs)
            = (k, f0) :: List.enumFrom (k + 1) fs from rfl,
          List.filterMap_cons, List.filter_cons]
        cases h0 : getFileAsBase64 store ["versions", nm, "diagrams", f0] with
        | none => simp [h0, ih (k + 1)]
        | some u => simp [h0, ih (k + 1)]
    have hmapeq : ((m.diagramFiles.enum.filterMap fun p =>
        (match getFileAsBase64 store ["versions", nm, "diagrams", p.2] with
         | some dataUrl =>
             some { id := replaceFirst p.2 ".png"
                    name := if p.1 = 0 then "Main Architecture"
                            else "Sub-Diagram " ++ Nat.repr p.1
                    dataUrl := some dataUrl
                    type := if p.1 = 0 then DiagramKind.main
                            else DiagramKind.sub }
         | none => none : Option Diagram)).map Diagram.dataUrl)
        = (m.diagramFiles.filter fun g =>
            (getFileAsBase64 store ["versions", nm, "diagrams", g]).isSome).map
          fun g => getFileAsBase64 store ["versions", nm, "diagrams", g] := by
      simp only [List.enum]
      exact hload m.diagramFiles 0
    have hlen : (m.diagramFiles.enum.filterMap fun p =>
        (match getFileAsBase64 store ["versions", nm, "diagrams", p.2] with
         | some dataUrl =>
             some { id := replaceFirst p.2 ".png"
                    name := if p.1 = 0 then "Main Architecture"
                            else "Sub-Diagram " ++ Nat.repr p.1
                    dataUrl := some dataUrl
                    type := if p.1 = 0 then DiagramKind.main
                            else DiagramKind.sub }
         | none => none : Option Diagram)).length
        < m.diagramFiles.length := by
      have h4 := congrArg List.length hmapeq
      rw [List.length_map, List.length_map] at h4
      rw [h4]
      have hle := List.length_filter_le
        (fun g => (getFileAsBase64 store ["versions", nm, "diagrams", g]).isSome)
        m.diagramFiles
      refine Nat.lt_of_le_of_ne hle ?_
      intro hEq
      have hsome := List.filter_length_eq_length.1 hEq f hf
      rw [hnone] at hsome
      exact absurd hsome (by decide)
    unfold loadVersionEntry
    rw [hmeta]
    exact ⟨_, rfl, rfl, rfl, hmapeq, hlen⟩

/-- C9 witness: a three-entry listing whose middle entry has no metadata
record still loads the other two, in ascending sequence order. -/
theorem loadVersions_isolation_and_sorted_witness :
    loadVersions
        [(["versions", "va", "version.json"],
          FileData.versionMeta ⟨"va", 2, 0, .complete, [], none, [], none⟩),
         (["versions", "vc", "version.json"],
          FileData.versionMeta ⟨"vc", 1, 0, .complete, [], none, [], none⟩)]
        (["va"] ++ "vb" :: ["vc"])
      = loadVersions
          [(["versions", "va", "version.json"],
            FileData.versionMeta ⟨"va", 2, 0, .complete, [], none, [], none⟩),
           (["versions", "vc", "version.json"],
            FileData.versionMeta ⟨"vc", 1, 0, .complete, [], none, [], none⟩)]
          (["va"] ++ ["vc"])
    ∧ (loadVersions
        [(["versions", "va", "version.json"],
          FileData.versionMeta ⟨"va", 2, 0, .complete, [], none, [], none⟩),
         (["versions", "vc", "version.json"],
          FileData.versionMeta ⟨"vc", 1, 0, .complete, [], none, [], none⟩)]
        (["va"] ++ "vb" :: ["vc"])).Pairwise
        (fun a b => a.versionNumber ≤ b.versionNumber)
    ∧ (∀ nm (m : VersionMetadata),
        getFileContent
            [(["versions", "va", "version.json"],
              FileData.versionMeta ⟨"va", 2, 0, .complete, [], none, [], none⟩),
             (["versions", "vc", "version.json"],
              FileData.versionMeta ⟨"vc", 1, 0, .complete, [], none, [], none⟩)]
            ["versions", nm, "version.json"]
            = some (.versionMeta m)
        → getFileAsBase64
            [(["versions", "va", "version.json"],
              FileData.versionMeta ⟨"va", 2, 0, .complete, [], none, [], none⟩),
             (["versions", "vc", "version.json"],
              FileData.versionMeta ⟨"vc", 1, 0, .complete, [], none, [], none⟩)]
            ["versions", nm, "refined", "refined.png"] = none
        → ∃ w, loadVersionEntry
              [(["versions", "va", "version.json"],
                FileData.versionMeta ⟨"va", 2, 0, .complete, [], none, [], none⟩),
               (["versions", "vc", "version.json"],
                FileData.versionMeta ⟨"vc", 1, 0, .complete, [], none, [], none⟩)]
              nm = some w
            ∧ w.refinedImage = none
            ∧ w.specs = m.specs
            ∧ w.versionNumber = m.versionNumber)
    ∧ ∀ nm (m : VersionMetadata) (f : String),
        getFileContent
            [(["versions", "va", "version.json"],
              FileData.versionMeta ⟨"va", 2, 0, .complete, [], none, [], none⟩),
             (["versions", "vc", "version.json"],
              FileData.versionMeta ⟨"vc", 1, 0, .complete, [], none, [], none⟩)]
            ["versions", nm, "version.json"]
            = some (.versionMeta m)
        → f ∈ m.diagramFiles
        → getFileAsBase64
            [(["versions", "va", "version.json"],
              FileData.versionMeta ⟨"va", 2, 0, .complete, [], none, [], none⟩),
             (["versions", "vc", "version.json"],
              FileData.versionMeta ⟨"vc", 1, 0, .complete, [], none, [], none⟩)]
            ["versions", nm, "diagrams", f] = none
        → ∃ w, loadVersionEntry
              [(["versions", "va", "version.json"],
                FileData.versionMeta ⟨"va", 2, 0, .complete, [], none, [], none⟩),
               (["versions", "vc", "version.json"],
                FileData.versionMeta ⟨"vc", 1, 0, .complete, [], none, [], none⟩)]
              nm = some w
            ∧ w.specs = m.specs
            ∧ w.versionNumber = m.versionNumber
            ∧ w.diagrams.map Diagram.dataUrl
                = ((m.diagramFiles.filter fun g =>
                    (getFileAsBase64
                      [(["versions", "va", "version.json"],
                        FileData.versionMeta ⟨"va", 2, 0, .complete, [], none, [], none⟩),
                       (["versions", "vc", "version.json"],
                        FileData.versionMeta ⟨"vc", 1, 0, .complete, [], none, [], none⟩)]
                      ["versions", nm, "diagrams", g]).isSome).map
                  fun g => getFileAsBase64
                      [(["versions", "va", "version.json"],
                        FileData.versionMeta ⟨"va", 2, 0, .complete, [], none, [], none⟩),
                       (["versions", "vc", "version.json"],
                        FileData.versionMeta ⟨"vc", 1, 0, .complete, [], none, [], none⟩)]
                      ["versions", nm, "diagrams", g])
            ∧ w.diagrams.length < m.diagramFiles.length :=
  loadVersions_isolation_and_sorted
    [(["versions", "va", "version.json"],
      FileData.versionMeta ⟨"va", 2, 0, .complete, [], none, [], none⟩),
     (["versions", "vc", "version.json"],
      FileData.versionMeta ⟨"vc", 1, 0, .complete, [], none, [], none⟩)]
    ["va"] ["vc"] "vb" (by rfl)

/-! ## C2 — round-trip through the remote store -/

theorem ite_singleton_sublist {c : Prop} [Decidable c] (y : RepoPath) :
    List.Sublist (if c then [y] else []) [y] := by
  split
  · exact List.Sublist.refl _
  · exact List.nil_sublist _

theorem saveVersion_paths_nodup (project : Project) (v : DiagramVersion)
    (now : Nat) (hids : ((dataDiagrams v.diagrams).map Diagram.id).Nodup) :
    ((saveVersion project v now).map WriteOp.path).Nodup := by
  rw [saveVersion_eq]
  simp only [List.map_append, List.map_map, apply_ite (List.map WriteOp.path),
    List.map_cons, List.map_nil]
  have hA : ((dataDiagrams v.diagrams).map
      (WriteOp.path ∘ fun d =>
        (⟨["versions", v.id, "diagrams", d.id ++ ".png"],
          .image (stripImageDataHeader (d.dataUrl.getD ""))⟩ : WriteOp))).Nodup := by
    have h2 : ((dataDiagrams v.diagrams).map
        (WriteOp.path ∘ fun d =>
          (⟨["versions", v.id, "diagrams", d.id ++ ".png"],
            .image (stripImageDataHeader (d.dataUrl.getD ""))⟩ : WriteOp)))
        = ((dataDiagrams v.diagrams).map Diagram.id).map
            fun i => (["versions", v.id, "diagrams", i ++ ".png"] : RepoPath) := by
      rw [List.map_map]
      rfl
    rw [h2]
    refine List.Nodup.map ?_ hids
    intro i j hij
    simp only [List.cons.injEq, and_true, true_and] at hij
    exact string_append_right_cancel hij
  have hsub : List.Sublist
      ((dataDiagrams v.diagrams).map
        (WriteOp.path ∘ fun d =>
          (⟨["versions", v.id, "diagrams", d.id ++ ".png"],
            .image (stripImageDataHeader (d.dataUrl.getD ""))⟩ : WriteOp))
      ++ (if truthyStr v.refinedImage then
            [(["versions", v.id, "refined", "refined.png"] : RepoPath)]
          else [])
      ++ [(["versions", v.id, "version.json"] : RepoPath)]
      ++ (if v.specs.length > 0 then
            [(["specs", "latest-specs.json"] : RepoPath)]
          else [])
      ++ (if truthyStr v.buildPlan then
            [(["specs", "v" ++ Nat.repr v.versionNumber ++ ".md"] : RepoPath)]
          else [])
      ++ [([".architectai", "project.json"] : RepoPath)])
      ((dataDiagrams v.diagrams).map
        (WriteOp.path ∘ fun d =>
          (⟨["versions", v.id, "diagrams", d.id ++ ".png"],
            .image (stripImageDataHeader (d.dataUrl.getD ""))⟩ : WriteOp))
      ++ [(["versions", v.id, "refined", "refined.png"] : RepoPath)]
      ++ [(["versions", v.id, "version.json"] : RepoPath)]
      ++ [(["specs", "latest-specs.json"] : RepoPath)]
      ++ [(["specs", "v" ++ Nat.repr v.versionNumber ++ ".md"] : RepoPath)]
      ++ [([".architectai", "project.json"] : RepoPath)]) := by
    refine List.Sublist.append (List.Sublist.append (List.Sublist.append
      (List.Sublist.append (List.Sublist.append (List.Sublist.refl _)
        (ite_singleton_sublist _)) (List.Sublist.refl _))
      (ite_singleton_sublist _)) (ite_singleton_sublist _)) (List.Sublist.refl _)
  refine List.Nodup.sublist hsub ?_
  have hflat : ((dataDiagrams v.diagrams).map
        (WriteOp.path ∘ fun d =>
          (⟨["versions", v.id, "diagrams", d.id ++ ".png"],
            .image (stripImageDataHeader (d.dataUrl.getD ""))⟩ : WriteOp))
      ++ [(["versions", v.id, "refined", "refined.png"] : RepoPath)]
      ++ [(["versions", v.id, "version.json"] : RepoPath)]
      ++ [(["specs", "latest-specs.json"] : RepoPath)]
      ++ [(["specs", "v" ++ Nat.repr v.versionNumber ++ ".md"] : RepoPath)]
      ++ [([".architectai", "project.json"] : RepoPath)])
      = ((dataDiagrams v.diagrams).map
        (WriteOp.path ∘ fun d =>
          (⟨["versions", v.id, "diagrams", d.id ++ ".png"],
            .image (stripImageDataHeader (d.dataUrl.getD ""))⟩ : WriteOp))
      ++ [(["versions", v.id, "refined", "refined.png"] : RepoPath),
          ["versions", v.id, "version.json"],
          ["specs", "latest-specs.json"],
          ["specs", "v" ++ Nat.repr v.versionNumber ++ ".md"],
          [".architectai", "project.json"]]) := by
    simp
  rw [hflat, List.nodup_append]
  refine ⟨hA, ?_, ?_⟩
  · have hvmd : ("v" ++ Nat.repr v.versionNumber ++ ".md") ≠ "latest-specs.json" :=
      v_md_ne_latest _
    simp [List.nodup_cons, hvmd, Ne.symm hvmd]
  · intro x hxA hxB
    obtain ⟨d, hd, rfl⟩ := List.mem_map.1 hxA
    simp only [List.mem_cons, List.not_mem_nil, or_false] at hxB
    rcases hxB with h | h | h | h | h <;> simp [Function.comp] at h

theorem loadVersions_singleton (store : RepoStore) (nm : String)
    (w : DiagramVersion) (h : loadVersionEntry store nm = some w) :
    loadVersions store [nm] = [w] := by
  simp [loadVersions, List.filterMap_cons, h]

/-- C2 is refuted as stated: `saveVersion` coerces every non-`error` status
to `complete` on disk, so a version saved while still `pending` is
reconstructed with status `complete`, not field-for-field equal to what was
saved. -/
theorem roundtrip_pending_status_not_preserved :
    (loadVersions
        (applyWrites []
          (saveVersion
            { id := "p2"
              name := "P"
              description := ""
              githubRepo := ⟨"o", "r", "o/r", "u", "h"⟩
              createdAt := 0
              updatedAt := 0 }
            { id := "v-50"
              versionNumber := 1
              timestamp := 50
              diagrams := []
              refinedImage := none
              specs := []
              status := VersionStatus.pending }
            51))
        ["v-50"]).map DiagramVersion.status = [VersionStatus.complete] := by
  rw [loadVersions_singleton _ "v-50"
    { id := "v-50"
      versionNumber := 1
      timestamp := 50
      diagrams := []
      refinedImage := none
      specs := []
      buildPlan := none
      status := VersionStatus.complete
      error := none }
    (by decide)]
  rfl

/-- C2 (amended): for every version in a *terminal* state — `complete` or
`error`; `saveVersion` coerces all other statuses to `complete` on disk —
whose persisted diagrams carry pairwise-distinct ids and whose refined
image is not the empty string, `saveVersion` followed by `loadVersions` on
a fresh ledger reconstructs a version with the same id, sequence number,
timestamp, status, specs (user notes included) and build plan, and whose
image payloads (the base64 bytes of every persisted diagram and of the
refined image) are byte-for-byte what was saved. -/
theorem saveVersion_loadVersions_roundtrip (store : RepoStore)
    (project : Project) (v : DiagramVersion) (now : Nat)
    (hstatus : v.status = .complete ∨ v.status = .error)
    (hids : ((dataDiagrams v.diagrams).map Diagram.id).Nodup)
    (href : v.refinedImage ≠ some "") :
    ∃ w, loadVersions (applyWrites store (saveVersion project v now)) [v.id] = [w]
      ∧ w.id = v.id
      ∧ w.versionNumber = v.versionNumber
      ∧ w.timestamp = v.timestamp
      ∧ w.status = v.status
      ∧ w.specs = v.specs
      ∧ w.buildPlan = v.buildPlan
      ∧ w.refinedImage.map stripImageDataHeader
          = v.refinedImage.map stripImageDataHeader
      ∧ w.diagrams.map (fun d => d.dataUrl.map stripImageDataHeader)
          = (dataDiagrams v.diagrams).map
              (fun d => d.dataUrl.map stripImageDataHeader) := by
  have hnd := saveVersion_paths_nodup project v now hids
  have F1 : getFileContent (applyWrites store (saveVersion project v now))
      ["versions", v.id, "version.json"] = some (.versionMeta (savedMeta v)) := by
    have hmem : (⟨["versions", v.id, "version.json"],
        FileData.versionMeta (savedMeta v)⟩ : WriteOp) ∈ saveVersion project v now := by
      rw [saveVersion_eq]
      refine List.mem_append_left _ (List.mem_append_left _
        (List.mem_append_left _ (List.mem_append_right _ ?_)))
      exact List.mem_singleton.2 rfl
    exact getFileContent_applyWrites_nodup store _ hnd _ hmem
  have F3 : ∀ d ∈ dataDiagrams v.diagrams,
      getFileContent (applyWrites store (saveVersion project v now))
          ["versions", v.id, "diagrams", d.id ++ ".png"]
        = some (.image (stripImageDataHeader (d.dataUrl.getD ""))) := by
    intro d hd
    have hmem : (⟨["versions", v.id, "diagrams", d.id ++ ".png"],
        FileData.image (stripImageDataHeader (d.dataUrl.getD ""))⟩ : WriteOp)
        ∈ saveVersion project v now := by
      rw [saveVersion_eq]
      refine List.mem_append_left _ (List.mem_append_left _
        (List.mem_append_left _ (List.mem_append_left _
          (List.mem_append_left _ ?_))))
      exact List.mem_map_of_mem _ hd
    exact getFileContent_applyWrites_nodup store _ hnd _ hmem
  have hdiag : ∀ (ds : List Diagram) (k : Nat),
      (∀ d ∈ ds, truthyStr d.dataUrl = true) →
      (∀ d ∈ ds, getFileContent (applyWrites store (saveVersion project v now))
          ["versions", v.id, "diagrams", d.id ++ ".png"]
          = some (.image (stripImageDataHeader (d.dataUrl.getD "")))) →
      ((((ds.map fun d => d.id ++ ".png").enumFrom k).filterMap fun p =>
          (match getFileAsBase64 (applyWrites store (saveVersion project v now))
              ["versions", v.id, "diagrams", p.2] with
          | some dataUrl =>
              some { id := replaceFirst p.2 ".png"
                     name := if p.1 = 0 then "Main Architecture"
                             else "Sub-Diagram " ++ Nat.repr p.1
                     dataUrl := some dataUrl
                     type := if p.1 = 0 then DiagramKind.main else DiagramKind.sub }
          | none => none : Option Diagram)).map
          fun d => d.dataUrl.map stripImageDataHeader)
        = ds.map fun d => d.dataUrl.map stripImageDataHeader := by
    intro ds
    induction ds with
    | nil => intro k _ _; rfl
    | cons d ds ih =>
      intro k hT hF
      have hgb : getFileAsBase64 (applyWrites store (saveVersion project v now))
          ["versions", v.id, "diagrams", d.id ++ ".png"]
          = some ("data:image/png;base64,"
              ++ stripImageDataHeader (d.dataUrl.getD "")) := by
        unfold getFileAsBase64
        rw [hF d (List.mem_cons_self d ds)]
      obtain ⟨u, hu⟩ : ∃ u, d.dataUrl = some u := by
        have ht := hT d (List.mem_cons_self d ds)
        cases hdu : d.dataUrl with
        | none => rw [hdu] at ht; exact absurd ht (by decide)
        | some u => exact ⟨u, rfl⟩
      rw [List.map_cons,
        show List.enumFrom k ((d.id ++ ".png") :: (ds.map fun d => d.id ++ ".png"))
          = (k, d.id ++ ".png")
            :: List.enumFrom (k + 1) (ds.map fun d => d.id ++ ".png") from rfl,
        List.filterMap_cons]
      simp only [hgb]
      rw [List.map_cons, List.map_cons,
        ih (k + 1) (fun x hx => hT x (List.mem_cons_of_mem d hx))
          (fun x hx => hF x (List.mem_cons_of_mem d hx))]
      simp [hu, stripImageDataHeader_png]
  refine ⟨{ id := (savedMeta v).id
            versionNumber := (savedMeta v).versionNumber
            timestamp := (savedMeta v).timestamp
            diagrams := (savedMeta v).diagramFiles.enum.filterMap fun p =>
                match getFileAsBase64 (applyWrites store (saveVersion project v now))
                    ["versions", v.id, "diagrams", p.2] with
                | some dataUrl =>
                    some { id := replaceFirst p.2 ".png"
                           name := if p.1 = 0 then "Main Architecture"
                                   else "Sub-Diagram " ++ Nat.repr p.1
                           dataUrl := some dataUrl
                           type := if p.1 = 0 then DiagramKind.main
                                   else DiagramKind.sub }
                | none => none
            refinedImage := match (savedMeta v).refinedFile with
                | some _ => getFileAsBase64
                    (applyWrites store (saveVersion project v now))
                    ["versions", v.id, "refined", "refined.png"]
                | none => none
            specs := (savedMeta v).specs
            buildPlan := (savedMeta v).buildPlan
            status := (savedMeta v).status.toVersionStatus },
    ?_, rfl, rfl, rfl, ?_, rfl, rfl, ?_, ?_⟩
  · have hentry : loadVersionEntry (applyWrites store (saveVersion project v now)) v.id
        = some { id := (savedMeta v).id
                 versionNumber := (savedMeta v).versionNumber
                 timestamp := (savedMeta v).timestamp
                 diagrams := (savedMeta v).diagramFiles.enum.filterMap fun p =>
                     match getFileAsBase64
                         (applyWrites store (saveVersion project v now))
                         ["versions", v.id, "diagrams", p.2] with
                     | some dataUrl =>
                         some { id := replaceFirst p.2 ".png"
                                name := if p.1 = 0 then "Main Architecture"
                                        else "Sub-Diagram " ++ Nat.repr p.1
                                dataUrl := some dataUrl
                                type := if p.1 = 0 then DiagramKind.main
                                        else DiagramKind.sub }
                     | none => none
                 refinedImage := match (savedMeta v).refinedFile with
                     | some _ => getFileAsBase64
                         (applyWrites store (saveVersion project v now))
                         ["versions", v.id, "refined", "refined.png"]
                     | none => none
                 specs := (savedMeta v).specs
                 buildPlan := (savedMeta v).buildPlan
                 status := (savedMeta v).status.toVersionStatus } := by
      unfold loadVersionEntry
      rw [F1]
    exact loadVersions_singleton _ _ _ hentry
  · rcases hstatus with h | h <;>
      simp [savedMeta, h, PersistedStatus.toVersionStatus]
  · cases hri : v.refinedImage with
    | none => simp [savedMeta, truthyStr, hri]
    | some r =>
      have hrne : (r != "") = true := by
        have : r ≠ "" := fun h0 => href (by rw [hri, h0])
        simpa [bne_iff_ne] using this
      have F2 : getFileContent (applyWrites store (saveVersion project v now))
          ["versions", v.id, "refined", "refined.png"]
          = some (.image (stripImageDataHeader r)) := by
        have hmem : (⟨["versions", v.id, "refined", "refined.png"],
            FileData.image (stripImageDataHeader r)⟩ : WriteOp)
            ∈ saveVersion project v now := by
          rw [saveVersion_eq, hri]
          refine List.mem_append_left _ (List.mem_append_left _
            (List.mem_append_left _ (List.mem_append_left _
              (List.mem_append_right _ ?_))))
          simp [truthyStr, hrne]
        exact getFileContent_applyWrites_nodup store _ hnd _ hmem
      simp [savedMeta, truthyStr, hri, hrne, getFileAsBase64, F2,
        stripImageDataHeader_png]
  · have hT : ∀ d ∈ dataDiagrams v.diagrams, truthyStr d.dataUrl = true :=
      fun d hd => (List.mem_filter.1 hd).2
    have hmain := hdiag (dataDiagrams v.diagrams) 0 hT F3
    simp only [savedMeta, List.enum]
    exact hmain

/-- C2 witness: a complete version with one diagram, a refined image, one
spec with a user note, and a build plan round-trips through an empty
store. -/
theorem saveVersion_loadVersions_roundtrip_witness :
    ∃ w, loadVersions
        (applyWrites []
          (saveVersion
            { id := "p3"
              name := "P"
              description := ""
              githubRepo := ⟨"o", "r", "o/r", "u", "h"⟩
              createdAt := 0
              updatedAt := 0 }
            { id := "v-60"
              versionNumber := 1
              timestamp := 60
              diagrams := [{ id := "main"
                             name := "Main Architecture"
                             dataUrl := some "data:image/png;base64,AA"
                             type := DiagramKind.main }]
              refinedImage := some "data:image/png;base64,BB"
              specs := [{ id := "comp-0-60"
                          name := "API"
                          description := "svc"
                          userNotes := "note" }]
              buildPlan := some "# Plan"
              status := VersionStatus.complete }
            61))
        ["v-60"] = [w]
      ∧ w.id = "v-60"
      ∧ w.versionNumber = 1
      ∧ w.timestamp = 60
      ∧ w.status = VersionStatus.complete
      ∧ w.specs = [{ id := "comp-0-60"
                     name := "API"
                     description := "svc"
                     userNotes := "note" }]
      ∧ w.buildPlan = some "# Plan"
      ∧ w.refinedImage.map stripImageDataHeader = some "BB"
      ∧ w.diagrams.map (fun d => d.dataUrl.map stripImageDataHeader)
          = [some "AA"] :=
  saveVersion_loadVersions_roundtrip []
    { id := "p3"
      name := "P"
      description := ""
      githubRepo := ⟨"o", "r", "o/r", "u", "h"⟩
      createdAt := 0
      updatedAt := 0 }
    { id := "v-60"
      versionNumber := 1
      timestamp := 60
      diagrams := [{ id := "main"
                     name := "Main Architecture"
                     dataUrl := some "data:image/png;base64,AA"
                     type := DiagramKind.main }]
      refinedImage := some "data:image/png;base64,BB"
      specs := [{ id := "comp-0-60"
                  name := "API"
                  description := "svc"
                  userNotes := "note" }]
      buildPlan := some "# Plan"
      status := VersionStatus.complete }
    61 (Or.inl rfl) (by decide) (by decide)

end ArchitectAI
